import Mathlib

/-! Orbital camera controller of `iluminacao.cpp`.

A shallow embedding of the mouse-driven camera of `src/iluminacao.cpp`
(`mouse`, `motion`, `resetView`, `initgfx`) and the properties of it that
the specification states.

Modelling conventions.

* The file-scope variables and the function-local `static GLint buttons_down`
  of `mouse` are the fields of one record, `State`; every handler is a
  function from `State` to `State`.
* `GLfloat` and `GLdouble` values are rationals (`ℚ`). The angles are kept
  as exact numbers: their updates add and subtract integer pointer deltas,
  which `GLfloat` arithmetic does without rounding below a magnitude of
  2^24. The zoom update divides by `10.0`, whose results are not
  representable, so its rounding is modelled: `toDouble` and `toFloat` round
  to nearest, ties to even, as the double arithmetic and the store to the
  `GLfloat` variable `distance` do.
* `GLint` values are integers.  The only integer arithmetic that can leave
  the 32-bit range is `--buttons_down`; it is reduced with `wrap32`.
* `printf` and `glutPostRedisplay` write no program variable and are left
  out of the state.
-/

namespace Iluminacao

/-! ## Constants -/

/-- Value of `GLUT_LEFT_BUTTON` in `GL/glut.h`. -/
def GLUT_LEFT_BUTTON : Int := 0
/-- Value of `GLUT_MIDDLE_BUTTON` in `GL/glut.h`. -/
def GLUT_MIDDLE_BUTTON : Int := 1
/-- Value of `GLUT_RIGHT_BUTTON` in `GL/glut.h`. -/
def GLUT_RIGHT_BUTTON : Int := 2
/-- Value of `GLUT_DOWN` in `GL/glut.h`. -/
def GLUT_DOWN : Int := 0
/-- Value of `GLUT_UP` in `GL/glut.h`. -/
def GLUT_UP : Int := 1

/-- First enumerator of `enum lighttypes { EYE_LIGHT, SCENE_LIGHT }`. -/
def EYE_LIGHT : Int := 0
/-- Second enumerator of `enum lighttypes`. -/
def SCENE_LIGHT : Int := 1

/-- Enumerator 0 of `enum actions { MOVE_EYE, TWIST_EYE, ZOOM, MOVE_NONE }`. -/
def MOVE_EYE : Int := 0
/-- Enumerator 1 of `enum actions`. -/
def TWIST_EYE : Int := 1
/-- Enumerator 2 of `enum actions`. -/
def ZOOM : Int := 2
/-- Enumerator 3 of `enum actions`. -/
def MOVE_NONE : Int := 3

/-! ## State -/

/-- The program variables: the globals of the file and the `static` counter
local to `mouse`. -/
structure State where
  /-- The global `static GLint lightpos`. -/
  lightpos : Int
  /-- The global `static GLint action`. -/
  action : Int
  /-- The global `static GLdouble xStart`. -/
  xStart : ℚ
  /-- The global `static GLdouble yStart`. -/
  yStart : ℚ
  /-- The global `static GLfloat fovy`. -/
  fovy : ℚ
  /-- The global `static GLfloat nearClip`. -/
  nearClip : ℚ
  /-- The global `static GLfloat farClip`. -/
  farClip : ℚ
  /-- The global `static GLfloat distance`. -/
  distance : ℚ
  /-- The global `static GLfloat twistAngle`. -/
  twistAngle : ℚ
  /-- The global `static GLfloat incAngle`. -/
  incAngle : ℚ
  /-- The global `static GLfloat azimAngle`. -/
  azimAngle : ℚ
  /-- The `static GLint buttons_down = 0` declared inside `mouse`. -/
  buttons_down : Int
  deriving DecidableEq

/-- State at program start: statics without an initialiser are zero,
`xStart`, `yStart` and `buttons_down` are initialised to zero. -/
def zeroState : State :=
  { lightpos := 0, action := 0, xStart := 0, yStart := 0,
    fovy := 0, nearClip := 0, farClip := 0,
    distance := 0, twistAngle := 0, incAngle := 0, azimAngle := 0,
    buttons_down := 0 }

/-! ## Arithmetic helpers -/

/-- Reduction of an integer to the signed 32-bit range of `GLint`. -/
def wrap32 (v : Int) : Int := (v + 2 ^ 31) % 2 ^ 32 - 2 ^ 31

/-- Rounding toward zero, the quotient `fmod` uses. -/
def truncQ (q : ℚ) : Int := if 0 ≤ q then ⌊q⌋ else ⌈q⌉

/-- The C library `fmod x y`: `x - n * y` with `n` the quotient `x / y`
rounded toward zero, so the result has the sign of `x`. The program only
calls it with `y = 360.0`. -/
def fmod (x y : ℚ) : ℚ := x - (truncQ (x / y) : ℚ) * y

/-- Rounding of a rational to the nearest integer, a tie going to the even
neighbour. -/
def roundNE (t : ℚ) : Int :=
  if t - (⌊t⌋ : ℚ) < 1 / 2 then ⌊t⌋
  else if 1 / 2 < t - (⌊t⌋ : ℚ) then ⌊t⌋ + 1
  else if ⌊t⌋ % 2 = 0 then ⌊t⌋ else ⌊t⌋ + 1

/-- Binary logarithm of a positive natural number, rounded down, by repeated
halving; `fuel` bounds the number of halvings and `n` itself is enough. -/
def log2Fuel : Nat → Nat → Nat
  | 0, _ => 0
  | fuel + 1, n => if 2 ≤ n then log2Fuel fuel (n / 2) + 1 else 0

/-- Binary exponent of a non-zero rational: the integer `k` with
`2 ^ k ≤ |q| < 2 ^ (k + 1)`. -/
def ilog2 (q : ℚ) : Int :=
  if (2 : ℚ) ^ ((log2Fuel q.num.natAbs q.num.natAbs : Int) - (log2Fuel q.den q.den : Int))
      ≤ |q| then
    (log2Fuel q.num.natAbs q.num.natAbs : Int) - (log2Fuel q.den q.den : Int)
  else (log2Fuel q.num.natAbs q.num.natAbs : Int) - (log2Fuel q.den q.den : Int) - 1

/-- Exponent of the spacing of the binary floating-point numbers around `x`
in a format with `p` significand bits whose subnormal spacing is
`2 ^ emin`. -/
def quantum (p : Nat) (emin : Int) (x : ℚ) : Int :=
  max (ilog2 x - ((p : Int) - 1)) emin

/-- Rounding to the nearest number of a binary floating-point format with `p`
significand bits and subnormal spacing `2 ^ emin`, ties to even (the IEEE 754
default). The exponent range is not bounded above: overflow to infinity,
which needs a magnitude of at least 2^127, is not represented. -/
def flRound (p : Nat) (emin : Int) (x : ℚ) : ℚ :=
  if x = 0 then 0
  else (roundNE (x / (2 : ℚ) ^ quantum p emin x) : ℚ) * (2 : ℚ) ^ quantum p emin x

/-- Rounding to `GLfloat` (IEEE binary32: 24 significand bits, subnormal
spacing 2^-149), as a store to a `GLfloat` variable does. -/
def toFloat (x : ℚ) : ℚ := flRound 24 (-149) x

/-- Rounding to `GLdouble` (IEEE binary64: 53 significand bits, subnormal
spacing 2^-1074), as every operation of double arithmetic does. -/
def toDouble (x : ℚ) : ℚ := flRound 53 (-1074) x

/-! ## Operations -/

/-- The function `resetView` (lines 181-188). -/
def resetView (s : State) : State :=
  { s with
    distance := s.nearClip + (s.farClip - s.nearClip) / 2
    twistAngle := 0
    incAngle := 60
    azimAngle := 0
    fovy := 60 }

/-- The state part of `initgfx` (lines 93-108); the OpenGL calls touch no
program variable. -/
def initgfx (s : State) : State :=
  let s1 := { s with fovy := 60, nearClip := 3, farClip := 12 }
  let s2 := resetView s1
  { s2 with lightpos := EYE_LIGHT }

/-- State when the event loop starts: `main` calls `initgfx` once. -/
def initState : State := initgfx zeroState

/-- The callback `mouse` (lines 128-152). -/
def mouse (s : State) (button state x y : Int) : State :=
  if state = GLUT_DOWN then
    let s1 :=
      if button = GLUT_LEFT_BUTTON then { s with action := MOVE_EYE }
      else if button = GLUT_MIDDLE_BUTTON then { s with action := TWIST_EYE }
      else if button = GLUT_RIGHT_BUTTON then { s with action := ZOOM }
      else s
    { s1 with xStart := (x : ℚ), yStart := (y : ℚ) }
  else
    let b := wrap32 (s.buttons_down - 1)
    let s1 := { s with buttons_down := b }
    if b = 0 then { s1 with action := MOVE_NONE } else s1

/-- The callback `motion` (lines 154-179). The `default` branch only
prints. In the `ZOOM` branch `y - yStart` and the division by `10.0` are
double operations, `distance` is promoted to double for the subtraction and
the result is stored back to the `GLfloat` variable. -/
def motion (s : State) (x y : Int) : State :=
  let s1 :=
    if s.action = MOVE_EYE then
      { s with
        azimAngle := s.azimAngle + ((x : ℚ) - s.xStart)
        incAngle := s.incAngle - ((y : ℚ) - s.yStart) }
    else if s.action = TWIST_EYE then
      { s with twistAngle := fmod (s.twistAngle + ((x : ℚ) - s.xStart)) 360 }
    else if s.action = ZOOM then
      { s with
        distance :=
          toFloat (toDouble (s.distance - toDouble (toDouble ((y : ℚ) - s.yStart) / 10))) }
    else s
  { s1 with xStart := (x : ℚ), yStart := (y : ℚ) }

/-- A run of `motion` callbacks at the given pointer positions, in order. -/
def motions (s : State) : List (Int × Int) → State
  | [] => s
  | p :: ps => motions (motion s p.1 p.2) ps

/-- Sum of the horizontal deltas of a run of pointer positions, each taken
against the position before it, the first against `x0`. -/
def sumDX (x0 : ℚ) : List (Int × Int) → ℚ
  | [] => 0
  | p :: ps => ((p.1 : ℚ) - x0) + sumDX (p.1 : ℚ) ps

/-- Sum of the vertical deltas of a run of pointer positions, each taken
against the position before it, the first against `y0`. -/
def sumDY (y0 : ℚ) : List (Int × Int) → ℚ
  | [] => 0
  | p :: ps => ((p.2 : ℚ) - y0) + sumDY (p.2 : ℚ) ps

/-- An input event delivered by the window system. -/
inductive Event where
  /-- A call `mouse(button, state, x, y)`. -/
  | mouse (button state x y : Int)
  /-- A call `motion(x, y)`. -/
  | motion (x y : Int)
  deriving DecidableEq

/-- One event handled by its callback. -/
def step (s : State) : Event → State
  | Event.mouse b st x y => mouse s b st x y
  | Event.motion x y => motion s x y

/-- The events of a list handled in arrival order. -/
def run (s : State) : List Event → State
  | [] => s
  | e :: es => run (step s e) es

/-- Number of events of a list that take the button-up branch of `mouse`
(every `state` other than `GLUT_DOWN`). -/
def countUps : List Event → Nat
  | [] => 0
  | Event.mouse _ st _ _ :: es => (if st = GLUT_DOWN then 0 else 1) + countUps es
  | Event.motion _ _ :: es => countUps es

/-! ## Concrete states used in the examples -/

/-- Left button pressed at `(100, 100)` right after start-up. -/
def leftPressed : State := mouse initState GLUT_LEFT_BUTTON GLUT_DOWN 100 100

/-- Middle button pressed at `(10, 0)` right after start-up. -/
def middlePressed : State := mouse initState GLUT_MIDDLE_BUTTON GLUT_DOWN 10 0

/-- Right button pressed at `(0, 0)` right after start-up. -/
def rightPressed : State := mouse initState GLUT_RIGHT_BUTTON GLUT_DOWN 0 0

/-- Middle button pressed at `(0, 0)` and dragged to `(10, 0)`: twist is 10
and the reference pointer is `(10, 0)`. -/
def twistedTen : State :=
  motion (mouse initState GLUT_MIDDLE_BUTTON GLUT_DOWN 0 0) 10 0

/-- Right button pressed at `(0, 0)` and dragged to `(0, -41942965)`: the
distance is 4194304 and the reference pointer is `(0, -41942965)`. -/
def zoomedFar : State := motion rightPressed 0 (-41942965)

/-- State with `action = MOVE_NONE`, every other variable as after start-up. -/
def idleState : State := { initState with action := MOVE_NONE }

/-! ## Lemmas on `wrap32` and `fmod` -/

theorem wrap32_of_range (v : Int) (h1 : -(2 ^ 31) ≤ v) (h2 : v < 2 ^ 31) :
    wrap32 v = v := by
  unfold wrap32
  omega

theorem truncQ_of_nonneg (q : ℚ) (h : 0 ≤ q) : truncQ q = ⌊q⌋ := by
  simp [truncQ, h]

theorem truncQ_of_neg (q : ℚ) (h : q < 0) : truncQ q = ⌈q⌉ := by
  simp [truncQ, not_le.mpr h]

theorem fmod_nonneg (a : ℚ) (h : 0 ≤ a) :
    0 ≤ fmod a 360 ∧ fmod a 360 < 360 := by
  have hq : 0 ≤ a / 360 := div_nonneg h (by norm_num)
  have h1 : ((⌊a / 360⌋ : Int) : ℚ) ≤ a / 360 := Int.floor_le _
  have h2 : a / 360 < ((⌊a / 360⌋ : Int) : ℚ) + 1 := Int.lt_floor_add_one _
  have e : a = a / 360 * 360 := by ring
  unfold fmod
  rw [truncQ_of_nonneg _ hq]
  constructor <;> nlinarith

theorem fmod_neg (a : ℚ) (h : a < 0) :
    -360 < fmod a 360 ∧ fmod a 360 ≤ 0 := by
  have hq : a / 360 < 0 := div_neg_of_neg_of_pos h (by norm_num)
  have h1 : a / 360 ≤ ((⌈a / 360⌉ : Int) : ℚ) := Int.le_ceil _
  have h2 : ((⌈a / 360⌉ : Int) : ℚ) < a / 360 + 1 := Int.ceil_lt_add_one _
  have e : a = a / 360 * 360 := by ring
  unfold fmod
  rw [truncQ_of_neg _ hq]
  constructor <;> nlinarith

theorem fmod_bounds (a : ℚ) : -360 < fmod a 360 ∧ fmod a 360 < 360 := by
  rcases le_or_lt 0 a with h | h
  · have := fmod_nonneg a h
    exact ⟨by linarith [this.1], this.2⟩
  · have := fmod_neg a h
    exact ⟨this.1, by linarith [this.2]⟩

theorem fmod_of_nonneg_lt (t : ℚ) (h0 : 0 ≤ t) (h1 : t < 360) :
    fmod t 360 = t := by
  have hq : 0 ≤ t / 360 := div_nonneg h0 (by norm_num)
  have hf : ⌊t / 360⌋ = 0 := by
    rw [Int.floor_eq_zero_iff]
    constructor
    · exact hq
    · rw [div_lt_one (by norm_num)]
      exact h1
  unfold fmod
  rw [truncQ_of_nonneg _ hq, hf]
  simp

theorem fmod_congr (a : ℚ) : ∃ k : Int, fmod a 360 = a - 360 * (k : ℚ) :=
  ⟨truncQ (a / 360), by unfold fmod; ring⟩

/-! ## Lemmas on rounding to nearest -/

theorem roundNE_bounds (t : ℚ) :
    t - 1 / 2 ≤ (roundNE t : ℚ) ∧ (roundNE t : ℚ) ≤ t + 1 / 2 := by
  have h1 : ((⌊t⌋ : Int) : ℚ) ≤ t := Int.floor_le t
  have h2 : t < ((⌊t⌋ : Int) : ℚ) + 1 := Int.lt_floor_add_one t
  unfold roundNE
  split_ifs with ha hb hc
  · constructor <;> linarith
  · push_cast
    constructor <;> linarith
  · constructor <;> linarith
  · push_cast
    constructor <;> linarith

theorem roundNE_intCast (n : Int) : roundNE (n : ℚ) = n := by
  unfold roundNE
  rw [Int.floor_intCast]
  simp

theorem roundNE_mono {s t : ℚ} (h : s ≤ t) : roundNE s ≤ roundNE t := by
  by_contra hlt
  push_neg at hlt
  have hs := roundNE_bounds s
  have ht := roundNE_bounds t
  have h1 : (roundNE t : ℚ) + 1 ≤ (roundNE s : ℚ) := by exact_mod_cast hlt
  have hst : s = t := by linarith [hs.2, ht.1]
  rw [hst] at hlt
  exact lt_irrefl _ hlt

theorem roundNE_neg (t : ℚ) : roundNE (-t) = -roundNE t := by
  by_cases hint : ((⌊t⌋ : Int) : ℚ) = t
  · rw [← hint, ← Int.cast_neg, roundNE_intCast, roundNE_intCast]
  · have h1 : ((⌊t⌋ : Int) : ℚ) < t := lt_of_le_of_ne (Int.floor_le t) hint
    have h2 : t < ((⌊t⌋ : Int) : ℚ) + 1 := Int.lt_floor_add_one t
    have hf : ⌊-t⌋ = -⌊t⌋ - 1 := by
      rw [Int.floor_eq_iff]
      push_cast
      constructor <;> linarith
    unfold roundNE
    rw [hf]
    push_cast
    split_ifs <;> first | omega | (exfalso; linarith)

theorem roundNE_nonneg {t : ℚ} (h : 0 ≤ t) : 0 ≤ roundNE t := by
  have := roundNE_mono h
  rwa [← Int.cast_zero, roundNE_intCast] at this

theorem log2Fuel_spec (fuel n : Nat) (hn : n ≠ 0) (hf : n ≤ fuel) :
    2 ^ log2Fuel fuel n ≤ n ∧ n < 2 ^ (log2Fuel fuel n + 1) := by
  induction fuel generalizing n with
  | zero => omega
  | succ fuel ih =>
    unfold log2Fuel
    split_ifs with h2
    · have hih := ih (n / 2) (by omega) (by omega)
      obtain ⟨h1, h3⟩ := hih
      rw [pow_succ] at h3 ⊢
      rw [pow_succ (2 : Nat) (log2Fuel fuel (n / 2) + 1)]
      constructor <;> omega
    · simp
      omega

theorem abs_eq_natAbs_div_den (q : ℚ) : |q| = (q.num.natAbs : ℚ) / (q.den : ℚ) := by
  have hd : (0 : ℚ) < (q.den : ℚ) := by exact_mod_cast q.den_pos
  conv_lhs => rw [← Rat.num_div_den q]
  rw [abs_div, abs_of_pos hd, Nat.cast_natAbs, Int.cast_abs]

theorem two_zpow_pos (k : Int) : (0 : ℚ) < (2 : ℚ) ^ k := zpow_pos (by norm_num) k

theorem ilog2_spec (q : ℚ) (hq : q ≠ 0) :
    (2 : ℚ) ^ ilog2 q ≤ |q| ∧ |q| < (2 : ℚ) ^ (ilog2 q + 1) := by
  have hn : q.num.natAbs ≠ 0 := by
    simpa using hq
  have hd : q.den ≠ 0 := q.den_nz
  obtain ⟨a1, a2⟩ := log2Fuel_spec q.num.natAbs q.num.natAbs hn le_rfl
  obtain ⟨b1, b2⟩ := log2Fuel_spec q.den q.den hd le_rfl
  have a1q : (2 : ℚ) ^ (log2Fuel q.num.natAbs q.num.natAbs) ≤ (q.num.natAbs : ℚ) := by
    exact_mod_cast a1
  have a2q : (q.num.natAbs : ℚ) < (2 : ℚ) ^ (log2Fuel q.num.natAbs q.num.natAbs + 1) := by
    exact_mod_cast a2
  have b1q : (2 : ℚ) ^ (log2Fuel q.den q.den) ≤ (q.den : ℚ) := by
    exact_mod_cast b1
  have b2q : (q.den : ℚ) < (2 : ℚ) ^ (log2Fuel q.den q.den + 1) := by
    exact_mod_cast b2
  have hdpos : (0 : ℚ) < (q.den : ℚ) := by exact_mod_cast q.den_pos
  have hnpos : (0 : ℚ) ≤ (q.num.natAbs : ℚ) := Nat.cast_nonneg _
  have hA : (0 : ℚ) < (2 : ℚ) ^ (log2Fuel q.num.natAbs q.num.natAbs) := pow_pos (by norm_num) _
  have hB : (0 : ℚ) < (2 : ℚ) ^ (log2Fuel q.den q.den) := pow_pos (by norm_num) _
  have habs := abs_eq_natAbs_div_den q
  have e0 : (2 : ℚ) ^ ((log2Fuel q.num.natAbs q.num.natAbs : Int) - (log2Fuel q.den q.den : Int))
      = (2 : ℚ) ^ (log2Fuel q.num.natAbs q.num.natAbs) / (2 : ℚ) ^ (log2Fuel q.den q.den) := by
    rw [zpow_sub₀ (by norm_num : (2 : ℚ) ≠ 0), zpow_natCast, zpow_natCast]
  unfold ilog2
  split_ifs with hc
  · refine ⟨hc, ?_⟩
    rw [zpow_add_one₀ (by norm_num : (2 : ℚ) ≠ 0), e0, habs, div_mul_eq_mul_div,
      div_lt_div_iff₀ hdpos hB]
    rw [pow_succ] at a2q
    nlinarith
  · push_neg at hc
    refine ⟨?_, by rw [sub_add_cancel]; exact hc⟩
    rw [zpow_sub_one₀ (by norm_num : (2 : ℚ) ≠ 0), e0, habs, div_mul_eq_mul_div,
      div_le_div_iff₀ hB hdpos]
    rw [pow_succ] at b2q
    have : (2 : ℚ) ^ log2Fuel q.num.natAbs q.num.natAbs * (2 : ℚ)⁻¹ * (q.den : ℚ)
        ≤ (q.num.natAbs : ℚ) * (2 : ℚ) ^ log2Fuel q.den q.den := by
      nlinarith
    exact this

theorem ilog2_neg (q : ℚ) : ilog2 (-q) = ilog2 q := by
  unfold ilog2
  simp only [Rat.neg_num, Rat.neg_den, Int.natAbs_neg, abs_neg]

theorem ilog2_mono {x y : ℚ} (hx : x ≠ 0) (hy : y ≠ 0) (h : |x| ≤ |y|) :
    ilog2 x ≤ ilog2 y := by
  have h1 := (ilog2_spec x hx).1
  have h2 := (ilog2_spec y hy).2
  have h3 : (2 : ℚ) ^ ilog2 x < (2 : ℚ) ^ (ilog2 y + 1) := lt_of_le_of_lt (le_trans h1 h) h2
  have := (zpow_lt_zpow_iff_right₀ (by norm_num : (1 : ℚ) < 2)).mp h3
  omega

theorem flRound_zero (p : Nat) (emin : Int) : flRound p emin 0 = 0 := by
  simp [flRound]

theorem flRound_of_ne (p : Nat) (emin : Int) (x : ℚ) (hx : x ≠ 0) :
    flRound p emin x
      = (roundNE (x / (2 : ℚ) ^ quantum p emin x) : ℚ) * (2 : ℚ) ^ quantum p emin x := by
  simp [flRound, hx]

theorem quantum_neg (p : Nat) (emin : Int) (x : ℚ) :
    quantum p emin (-x) = quantum p emin x := by
  unfold quantum
  rw [ilog2_neg]

theorem flRound_neg (p : Nat) (emin : Int) (x : ℚ) :
    flRound p emin (-x) = -flRound p emin x := by
  by_cases hx : x = 0
  · subst hx
    simp [flRound_zero]
  · rw [flRound_of_ne p emin (-x) (neg_ne_zero.mpr hx), flRound_of_ne p emin x hx,
      quantum_neg, neg_div, roundNE_neg]
    push_cast
    ring

theorem flRound_nonneg (p : Nat) (emin : Int) {x : ℚ} (h : 0 ≤ x) :
    0 ≤ flRound p emin x := by
  by_cases hx : x = 0
  · subst hx
    rw [flRound_zero]
  · rw [flRound_of_ne p emin x hx]
    have hq := two_zpow_pos (quantum p emin x)
    have hr : (0 : ℚ) ≤ (roundNE (x / (2 : ℚ) ^ quantum p emin x) : ℚ) := by
      exact_mod_cast roundNE_nonneg (div_nonneg h hq.le)
    exact mul_nonneg hr hq.le

theorem flRound_nonpos (p : Nat) (emin : Int) {x : ℚ} (h : x ≤ 0) :
    flRound p emin x ≤ 0 := by
  have := flRound_nonneg p emin (neg_nonneg.mpr h)
  rw [flRound_neg] at this
  linarith

/-- A value on the grid of `x` (an integer multiple of a power of two at
least the quantum of `x`) is not crossed when `x` is rounded. -/
theorem flRound_grid (p : Nat) (emin : Int) (x c : ℚ) (N e : Int) (hx : x ≠ 0)
    (he : quantum p emin x ≤ e) (hc : c = (N : ℚ) * (2 : ℚ) ^ e) :
    (x ≤ c → flRound p emin x ≤ c) ∧ (c ≤ x → c ≤ flRound p emin x) := by
  have hq := two_zpow_pos (quantum p emin x)
  have hk : c / (2 : ℚ) ^ quantum p emin x
      = ((N * 2 ^ (e - quantum p emin x).toNat : Int) : ℚ) := by
    have e1 : e = quantum p emin x + ((e - quantum p emin x).toNat : Int) := by
      rw [Int.toNat_of_nonneg (by omega)]
      ring
    rw [hc]
    conv_lhs => rw [e1]
    rw [zpow_add₀ (by norm_num : (2 : ℚ) ≠ 0), zpow_natCast]
    push_cast
    field_simp
    ring
  have hcq : c = ((N * 2 ^ (e - quantum p emin x).toNat : Int) : ℚ)
      * (2 : ℚ) ^ quantum p emin x := by
    rw [← hk]
    field_simp
  rw [flRound_of_ne p emin x hx]
  constructor
  · intro hxc
    have h1 : x / (2 : ℚ) ^ quantum p emin x ≤ c / (2 : ℚ) ^ quantum p emin x :=
      div_le_div_of_nonneg_right hxc hq.le
    have h2 := roundNE_mono h1
    rw [hk, roundNE_intCast] at h2
    have h3 : (roundNE (x / (2 : ℚ) ^ quantum p emin x) : ℚ)
        ≤ ((N * 2 ^ (e - quantum p emin x).toNat : Int) : ℚ) := by exact_mod_cast h2
    calc (roundNE (x / (2 : ℚ) ^ quantum p emin x) : ℚ) * (2 : ℚ) ^ quantum p emin x
        ≤ ((N * 2 ^ (e - quantum p emin x).toNat : Int) : ℚ) * (2 : ℚ) ^ quantum p emin x :=
          mul_le_mul_of_nonneg_right h3 hq.le
      _ = c := hcq.symm
  · intro hcx
    have h1 : c / (2 : ℚ) ^ quantum p emin x ≤ x / (2 : ℚ) ^ quantum p emin x :=
      div_le_div_of_nonneg_right hcx hq.le
    have h2 := roundNE_mono h1
    rw [hk, roundNE_intCast] at h2
    have h3 : ((N * 2 ^ (e - quantum p emin x).toNat : Int) : ℚ)
        ≤ (roundNE (x / (2 : ℚ) ^ quantum p emin x) : ℚ) := by exact_mod_cast h2
    calc c = ((N * 2 ^ (e - quantum p emin x).toNat : Int) : ℚ)
          * (2 : ℚ) ^ quantum p emin x := hcq
      _ ≤ (roundNE (x / (2 : ℚ) ^ quantum p emin x) : ℚ) * (2 : ℚ) ^ quantum p emin x :=
          mul_le_mul_of_nonneg_right h3 hq.le

/-- A value that one format represents is represented by every format with
at least as many significand bits and at most the same least exponent. -/
theorem flRound_fixed_of_finer (p p2 : Nat) (emin emin2 : Int) (d : ℚ)
    (hp : p ≤ p2) (he : emin2 ≤ emin) (hd : flRound p emin d = d) :
    flRound p2 emin2 d = d := by
  by_cases h0 : d = 0
  · subst h0
    exact flRound_zero p2 emin2
  · have hq : quantum p2 emin2 d ≤ quantum p emin d := by
      unfold quantum
      omega
    have hrep : d = ((roundNE (d / (2 : ℚ) ^ quantum p emin d) : Int) : ℚ)
        * (2 : ℚ) ^ quantum p emin d := by
      conv_lhs => rw [← hd, flRound_of_ne p emin d h0]
    have := flRound_grid p2 emin2 d d _ _ h0 hq hrep
    exact le_antisymm (this.1 le_rfl) (this.2 le_rfl)

theorem flRound_mono_pos (p : Nat) (emin : Int) (hp : 1 ≤ p) {x y : ℚ} (hx : 0 < x)
    (hxy : x ≤ y) :
    flRound p emin x ≤ flRound p emin y := by
  have hy : 0 < y := lt_of_lt_of_le hx hxy
  have hl : ilog2 x ≤ ilog2 y :=
    ilog2_mono hx.ne' hy.ne' (by rw [abs_of_pos hx, abs_of_pos hy]; exact hxy)
  by_cases hq : quantum p emin x = quantum p emin y
  · rw [flRound_of_ne p emin x hx.ne', flRound_of_ne p emin y hy.ne', hq]
    have hpos := two_zpow_pos (quantum p emin y)
    have h1 : x / (2 : ℚ) ^ quantum p emin y ≤ y / (2 : ℚ) ^ quantum p emin y :=
      div_le_div_of_nonneg_right hxy hpos.le
    have h2 : (roundNE (x / (2 : ℚ) ^ quantum p emin y) : ℚ)
        ≤ (roundNE (y / (2 : ℚ) ^ quantum p emin y) : ℚ) := by
      exact_mod_cast roundNE_mono h1
    exact mul_le_mul_of_nonneg_right h2 hpos.le
  · have hlt : ilog2 x < ilog2 y := by
      unfold quantum at hq
      rcases lt_or_eq_of_le hl with h | h
      · exact h
      · rw [h] at hq
        exact absurd rfl hq
    have hqy : quantum p emin y ≤ ilog2 y := by
      unfold quantum at hq ⊢
      omega
    have hqx : quantum p emin x ≤ ilog2 y := by
      unfold quantum at hq ⊢
      omega
    have hxm : x ≤ (2 : ℚ) ^ ilog2 y := by
      have h1 := (ilog2_spec x hx.ne').2
      rw [abs_of_pos hx] at h1
      have h2 : (2 : ℚ) ^ (ilog2 x + 1) ≤ (2 : ℚ) ^ ilog2 y :=
        zpow_le_zpow_right₀ (by norm_num) (by omega)
      linarith
    have hmy : (2 : ℚ) ^ ilog2 y ≤ y := by
      have h1 := (ilog2_spec y hy.ne').1
      rwa [abs_of_pos hy] at h1
    have hm : (2 : ℚ) ^ ilog2 y = ((1 : Int) : ℚ) * (2 : ℚ) ^ ilog2 y := by simp
    have g1 := (flRound_grid p emin x _ 1 (ilog2 y) hx.ne' hqx hm).1 hxm
    have g2 := (flRound_grid p emin y _ 1 (ilog2 y) hy.ne' hqy hm).2 hmy
    exact le_trans g1 g2

theorem flRound_mono (p : Nat) (emin : Int) (hp : 1 ≤ p) {x y : ℚ} (hxy : x ≤ y) :
    flRound p emin x ≤ flRound p emin y := by
  rcases lt_trichotomy 0 x with hx | hx | hx
  · exact flRound_mono_pos p emin hp hx hxy
  · subst hx
    rw [flRound_zero]
    exact flRound_nonneg p emin hxy
  · rcases le_or_lt 0 y with hy | hy
    · exact le_trans (flRound_nonpos p emin hx.le) (flRound_nonneg p emin hy)
    · have := flRound_mono_pos p emin hp (neg_pos.mpr hy) (neg_le_neg hxy)
      rw [flRound_neg, flRound_neg] at this
      linarith

theorem flRound_err (p : Nat) (emin : Int) (x : ℚ) :
    |flRound p emin x - x| ≤ |x| / (2 : ℚ) ^ p + (2 : ℚ) ^ emin / 2 := by
  have hpp : (0 : ℚ) < (2 : ℚ) ^ p := pow_pos (by norm_num) p
  have hem := two_zpow_pos emin
  by_cases hx : x = 0
  · subst hx
    rw [flRound_zero]
    simp only [sub_self, abs_zero, zero_div, zero_add]
    positivity
  · have hq := two_zpow_pos (quantum p emin x)
    have hb := roundNE_bounds (x / (2 : ℚ) ^ quantum p emin x)
    have hx2 : x = x / (2 : ℚ) ^ quantum p emin x * (2 : ℚ) ^ quantum p emin x := by
      field_simp
    have e1 : flRound p emin x - x
        = ((roundNE (x / (2 : ℚ) ^ quantum p emin x) : ℚ) - x / (2 : ℚ) ^ quantum p emin x)
          * (2 : ℚ) ^ quantum p emin x := by
      rw [flRound_of_ne p emin x hx]
      conv_lhs => rw [hx2]
      field_simp
    have h1 : |flRound p emin x - x| ≤ (2 : ℚ) ^ quantum p emin x / 2 := by
      rw [e1, abs_mul, abs_of_pos hq]
      have : |(roundNE (x / (2 : ℚ) ^ quantum p emin x) : ℚ) - x / (2 : ℚ) ^ quantum p emin x|
          ≤ 1 / 2 := by
        rw [abs_le]
        constructor <;> linarith [hb.1, hb.2]
      nlinarith
    have hl := (ilog2_spec x hx).1
    have habs : (0 : ℚ) ≤ |x| / (2 : ℚ) ^ p := div_nonneg (abs_nonneg x) hpp.le
    rcases le_total (ilog2 x - ((p : Int) - 1)) emin with hm | hm
    · have hqe : quantum p emin x = emin := by
        unfold quantum
        exact max_eq_right hm
      rw [hqe] at h1
      linarith
    · have hqe : quantum p emin x = ilog2 x - ((p : Int) - 1) := by
        unfold quantum
        exact max_eq_left hm
      have e2 : (2 : ℚ) ^ (ilog2 x - ((p : Int) - 1)) / 2 = (2 : ℚ) ^ ilog2 x / (2 : ℚ) ^ p := by
        rw [zpow_sub₀ (by norm_num : (2 : ℚ) ≠ 0), zpow_sub₀ (by norm_num : (2 : ℚ) ≠ 0),
          zpow_natCast, zpow_one]
        field_simp
        ring
      rw [hqe, e2] at h1
      have h3 : (2 : ℚ) ^ ilog2 x / (2 : ℚ) ^ p ≤ |x| / (2 : ℚ) ^ p :=
        div_le_div_of_nonneg_right hl hpp.le
      linarith [hem]

/-- Rounding a `GLfloat` value to `GLdouble` leaves it unchanged. -/
theorem toDouble_of_toFloat (d : ℚ) (hd : toFloat d = d) : toDouble d = d :=
  flRound_fixed_of_finer 24 53 (-149) (-1074) d (by norm_num) (by norm_num) hd

/-- Distance error of the zoom update against the exact difference. -/
theorem zoom_err (d y0 : ℚ) (y : Int) :
    |toFloat (toDouble (d - toDouble (toDouble ((y : ℚ) - y0) / 10)))
        - (d - ((y : ℚ) - y0) / 10)|
      ≤ (|d| + |(y : ℚ) - y0| / 10) / 2 ^ 23 + 1 / 2 ^ 149 := by
  unfold toFloat toDouble
  have ha := flRound_err 53 (-1074) ((y : ℚ) - y0)
  have hb := flRound_err 53 (-1074) (flRound 53 (-1074) ((y : ℚ) - y0) / 10)
  have hc := flRound_err 53 (-1074)
    (d - flRound 53 (-1074) (flRound 53 (-1074) ((y : ℚ) - y0) / 10))
  have hn := flRound_err 24 (-149) (flRound 53 (-1074)
    (d - flRound 53 (-1074) (flRound 53 (-1074) ((y : ℚ) - y0) / 10)))
  generalize flRound 24 (-149) (flRound 53 (-1074)
    (d - flRound 53 (-1074) (flRound 53 (-1074) ((y : ℚ) - y0) / 10))) = n at *
  generalize flRound 53 (-1074)
    (d - flRound 53 (-1074) (flRound 53 (-1074) ((y : ℚ) - y0) / 10)) = c at *
  generalize flRound 53 (-1074) (flRound 53 (-1074) ((y : ℚ) - y0) / 10) = b at *
  generalize flRound 53 (-1074) ((y : ℚ) - y0) = a at *
  generalize (y : ℚ) - y0 = dy at *
  have t1 : |a| ≤ |dy| + |a - dy| := by linarith [abs_sub_abs_le_abs_sub a dy]
  have e10 : |a / 10| = |a| / 10 := by
    rw [abs_div]
    norm_num
  have t2 : |b| ≤ |a / 10| + |b - a / 10| := by
    linarith [abs_sub_abs_le_abs_sub b (a / 10)]
  have t3 : |d - b| ≤ |d| + |b| := abs_sub d b
  have t4 : |c| ≤ |d - b| + |c - (d - b)| := by
    linarith [abs_sub_abs_le_abs_sub c (d - b)]
  have t5 : |n - (d - dy / 10)|
      ≤ |n - c| + |c - (d - b)| + |b - a / 10| + |a - dy| / 10 := by
    have e : n - (d - dy / 10)
        = (n - c) + (c - (d - b)) + (-(b - a / 10)) + (-((a - dy) / 10)) := by ring
    have e2 : |(a - dy) / 10| = |a - dy| / 10 := by
      rw [abs_div]
      norm_num
    rw [e]
    have s1 := abs_add ((n - c) + (c - (d - b)) + (-(b - a / 10))) (-((a - dy) / 10))
    have s2 := abs_add ((n - c) + (c - (d - b))) (-(b - a / 10))
    have s3 := abs_add (n - c) (c - (d - b))
    rw [abs_neg] at s1 s2
    linarith
  have k1 : (2 : ℚ) ^ (-1074 : Int) ≤ 1 / 2 ^ 200 := by
    rw [zpow_neg, zpow_ofNat, one_div]
    exact inv_anti₀ (by positivity) (pow_le_pow_right₀ (by norm_num) (by norm_num))
  have k2 : (2 : ℚ) ^ (-149 : Int) = 1 / 2 ^ 149 := by
    rw [zpow_neg, zpow_ofNat, one_div]
  have k3 : (0 : ℚ) < (2 : ℚ) ^ (-1074 : Int) := two_zpow_pos _
  rw [k2] at hn
  have n1 := abs_nonneg d
  have n2 := abs_nonneg dy
  norm_num at ha hb hc hn k1 ⊢
  linarith

/-! ## Frame lemmas for `motion` -/

theorem motion_action (s : State) (x y : Int) : (motion s x y).action = s.action := by
  unfold motion
  split_ifs <;> rfl

theorem motion_xStart (s : State) (x y : Int) : (motion s x y).xStart = (x : ℚ) := by
  unfold motion
  split_ifs <;> rfl

theorem motion_yStart (s : State) (x y : Int) : (motion s x y).yStart = (y : ℚ) := by
  unfold motion
  split_ifs <;> rfl

theorem motion_buttons_down (s : State) (x y : Int) :
    (motion s x y).buttons_down = s.buttons_down := by
  unfold motion
  split_ifs <;> rfl

theorem motion_twist (s : State) (x y : Int) (h : s.action = TWIST_EYE) :
    (motion s x y).twistAngle = fmod (s.twistAngle + ((x : ℚ) - s.xStart)) 360 := by
  simp [motion, h, TWIST_EYE, MOVE_EYE]

/-! ## Release of the only held button (C1) -/

/-- C1: the end-to-end scenario evaluated on the code. From the defaults,
pressing the left button at (100,100) and moving to (150,80) gives azimuth 50
and incidence 80. Releasing the left button then decrements `buttons_down`
from 0 to -1, so the test `--buttons_down == 0` fails and the action stays
`MOVE_EYE` instead of becoming `MOVE_NONE`; the next motion to (200,200)
moves the camera to azimuth 100 and incidence -40. -/
theorem C1_release_leaves_orbit_active :
    (motion leftPressed 150 80).azimAngle = 50 ∧
    (motion leftPressed 150 80).incAngle = 80 ∧
    (mouse (motion leftPressed 150 80) GLUT_LEFT_BUTTON GLUT_UP 150 80).buttons_down = -1 ∧
    (mouse (motion leftPressed 150 80) GLUT_LEFT_BUTTON GLUT_UP 150 80).action = MOVE_EYE ∧
    (mouse (motion leftPressed 150 80) GLUT_LEFT_BUTTON GLUT_UP 150 80).action ≠ MOVE_NONE ∧
    (motion (mouse (motion leftPressed 150 80) GLUT_LEFT_BUTTON GLUT_UP 150 80)
      200 200).azimAngle = 100 ∧
    (motion (mouse (motion leftPressed 150 80) GLUT_LEFT_BUTTON GLUT_UP 150 80)
      200 200).incAngle = -40 := by
  decide!

/-! ## Orbit drag (C2) -/

/-- C2: in `MOVE_EYE` mode a run of motion events adds the sum of the
horizontal deltas to the azimuth and subtracts the sum of the vertical
deltas from the incidence, exactly; distance and twist are unchanged. -/
theorem C2_orbit_accumulates (s : State) (ps : List (Int × Int))
    (h : s.action = MOVE_EYE) :
    (motions s ps).azimAngle = s.azimAngle + sumDX s.xStart ps ∧
    (motions s ps).incAngle = s.incAngle - sumDY s.yStart ps ∧
    (motions s ps).distance = s.distance ∧
    (motions s ps).twistAngle = s.twistAngle := by
  induction ps generalizing s with
  | nil => simp [motions, sumDX, sumDY]
  | cons p ps ih =>
    have ha : (motion s p.1 p.2).action = MOVE_EYE := by rw [motion_action, h]
    obtain ⟨h1, h2, h3, h4⟩ := ih (motion s p.1 p.2) ha
    simp only [motions, sumDX, sumDY]
    rw [h1, h2, h3, h4, motion_xStart, motion_yStart]
    simp only [motion, h, if_true]
    refine ⟨by ring, by ring, trivial, trivial⟩

/-- C2 witness: two motion events after pressing the left button at
(100,100). -/
theorem C2_orbit_accumulates_witness :
    leftPressed.action = MOVE_EYE ∧
    ((motions leftPressed [(150, 80), (200, 200)]).azimAngle
        = leftPressed.azimAngle + sumDX leftPressed.xStart [(150, 80), (200, 200)] ∧
      (motions leftPressed [(150, 80), (200, 200)]).incAngle
        = leftPressed.incAngle - sumDY leftPressed.yStart [(150, 80), (200, 200)] ∧
      (motions leftPressed [(150, 80), (200, 200)]).distance = leftPressed.distance ∧
      (motions leftPressed [(150, 80), (200, 200)]).twistAngle = leftPressed.twistAngle) :=
  ⟨by decide, C2_orbit_accumulates leftPressed [(150, 80), (200, 200)] (by decide)⟩

/-! ## Zoom drag (C5) -/

/-- C5 counterexample: the new distance is not `distance - deltaY / 10` as a
rational, and a positive `deltaY` need not decrease it. After start-up the
right button is pressed at (0,0), so the mode is `ZOOM` and the distance is
7.5; moving the pointer to (0,1) stores 15518925/2097152, the `GLfloat`
nearest to 7.4, not 37/5. With the distance at 4194304, where neighbouring
`GLfloat` values are 0.25 and 0.5 apart, a further `deltaY = 1` leaves the
distance at 4194304. -/
theorem C5_zoom_exact_counterexample :
    rightPressed.action = ZOOM ∧
    (motion rightPressed 0 1).distance = 15518925 / 2097152 ∧
    rightPressed.distance - (((1 : Int) : ℚ) - rightPressed.yStart) / 10 = 37 / 5 ∧
    (motion rightPressed 0 1).distance
      ≠ rightPressed.distance - (((1 : Int) : ℚ) - rightPressed.yStart) / 10 ∧
    zoomedFar.action = ZOOM ∧
    zoomedFar.distance = 4194304 ∧
    0 < ((-41942964 : Int) : ℚ) - zoomedFar.yStart ∧
    (motion zoomedFar 0 (-41942964)).distance = 4194304 ∧
    ¬ ((motion zoomedFar 0 (-41942964)).distance < zoomedFar.distance) := by
  decide!

/-- C5 (amended): in `ZOOM` mode with the distance a `GLfloat` value, one
motion event sets the distance to `distance - deltaY / 10` evaluated in
double arithmetic and rounded to `GLfloat`. The result differs from the
exact difference by at most `(|distance| + |deltaY| / 10) / 2^23 + 2^-149`,
and equals it when `deltaY`, `deltaY / 10` and the difference are
representable. The distance does not increase for a positive `deltaY`, does
not decrease for a negative one and stays for zero, whatever the clip planes
are; azimuth, incidence and twist are unchanged. -/
theorem C5_zoom_rounded (s : State) (x y : Int) (h : s.action = ZOOM)
    (hd : toFloat s.distance = s.distance) :
    (motion s x y).distance
      = toFloat (toDouble (s.distance - toDouble (toDouble ((y : ℚ) - s.yStart) / 10))) ∧
    |(motion s x y).distance - (s.distance - ((y : ℚ) - s.yStart) / 10)|
      ≤ (|s.distance| + |(y : ℚ) - s.yStart| / 10) / 2 ^ 23 + 1 / 2 ^ 149 ∧
    (toDouble ((y : ℚ) - s.yStart) = (y : ℚ) - s.yStart →
      toDouble (((y : ℚ) - s.yStart) / 10) = ((y : ℚ) - s.yStart) / 10 →
      toFloat (s.distance - ((y : ℚ) - s.yStart) / 10)
        = s.distance - ((y : ℚ) - s.yStart) / 10 →
      (motion s x y).distance = s.distance - ((y : ℚ) - s.yStart) / 10) ∧
    (0 < (y : ℚ) - s.yStart → (motion s x y).distance ≤ s.distance) ∧
    ((y : ℚ) - s.yStart < 0 → s.distance ≤ (motion s x y).distance) ∧
    ((y : ℚ) - s.yStart = 0 → (motion s x y).distance = s.distance) ∧
    (motion s x y).azimAngle = s.azimAngle ∧
    (motion s x y).incAngle = s.incAngle ∧
    (motion s x y).twistAngle = s.twistAngle := by
  have hrule : (motion s x y).distance
      = toFloat (toDouble (s.distance - toDouble (toDouble ((y : ℚ) - s.yStart) / 10))) := by
    simp [motion, h, ZOOM, MOVE_EYE, TWIST_EYE]
  have hdd : toDouble s.distance = s.distance := toDouble_of_toFloat _ hd
  have hfix : toFloat (toDouble s.distance) = s.distance := by rw [hdd, hd]
  refine ⟨hrule, ?_, ?_, ?_, ?_, ?_, ?_, ?_, ?_⟩
  · rw [hrule]
    exact zoom_err s.distance s.yStart y
  · intro e1 e2 e3
    rw [hrule, e1, e2, toDouble_of_toFloat _ e3, e3]
  · intro hp
    rw [hrule]
    have q0 : 0 ≤ toDouble (toDouble ((y : ℚ) - s.yStart) / 10) :=
      flRound_nonneg 53 (-1074)
        (div_nonneg (flRound_nonneg 53 (-1074) hp.le) (by norm_num))
    have m1 : toDouble (s.distance - toDouble (toDouble ((y : ℚ) - s.yStart) / 10))
        ≤ toDouble s.distance :=
      flRound_mono 53 (-1074) (by norm_num) (by linarith)
    have m2 := flRound_mono 24 (-149) (by norm_num) m1
    have m3 : toFloat (toDouble (s.distance - toDouble (toDouble ((y : ℚ) - s.yStart) / 10)))
        ≤ toFloat (toDouble s.distance) := m2
    rw [hfix] at m3
    exact m3
  · intro hn
    rw [hrule]
    have q0 : toDouble (toDouble ((y : ℚ) - s.yStart) / 10) ≤ 0 :=
      flRound_nonpos 53 (-1074)
        (div_nonpos_of_nonpos_of_nonneg (flRound_nonpos 53 (-1074) hn.le) (by norm_num))
    have m1 : toDouble s.distance
        ≤ toDouble (s.distance - toDouble (toDouble ((y : ℚ) - s.yStart) / 10)) :=
      flRound_mono 53 (-1074) (by norm_num) (by linarith)
    have m2 := flRound_mono 24 (-149) (by norm_num) m1
    have m3 : toFloat (toDouble s.distance)
        ≤ toFloat (toDouble (s.distance - toDouble (toDouble ((y : ℚ) - s.yStart) / 10))) := m2
    rw [hfix] at m3
    exact m3
  · intro hz
    rw [hrule, hz]
    have z1 : toDouble (0 : ℚ) = 0 := flRound_zero 53 (-1074)
    rw [z1, zero_div, z1, sub_zero, hfix]
  · simp [motion, h, ZOOM, MOVE_EYE, TWIST_EYE]
  · simp [motion, h, ZOOM, MOVE_EYE, TWIST_EYE]
  · simp [motion, h, ZOOM, MOVE_EYE, TWIST_EYE]

/-- C5 witness: right button pressed at (0,0) after start-up. A move to (0,1)
stores 15518925/2097152, within the error bound of 37/5 and below 7.5; a
move to (0,100) has every intermediate value representable and gives
exactly -2.5, below `nearClip = 3`. -/
theorem C5_zoom_rounded_witness :
    rightPressed.action = ZOOM ∧
    toFloat rightPressed.distance = rightPressed.distance ∧
    (motion rightPressed 0 1).distance = 15518925 / 2097152 ∧
    |(motion rightPressed 0 1).distance
        - (rightPressed.distance - (((1 : Int) : ℚ) - rightPressed.yStart) / 10)|
      ≤ (|rightPressed.distance| + |((1 : Int) : ℚ) - rightPressed.yStart| / 10) / 2 ^ 23
        + 1 / 2 ^ 149 ∧
    (motion rightPressed 0 1).distance ≤ rightPressed.distance ∧
    (motion rightPressed 0 100).distance
      = rightPressed.distance - (((100 : Int) : ℚ) - rightPressed.yStart) / 10 ∧
    (motion rightPressed 0 100).distance = -5 / 2 ∧
    (motion rightPressed 0 100).distance < rightPressed.nearClip :=
  ⟨by decide, by decide!, by decide!,
    (C5_zoom_rounded rightPressed 0 1 (by decide) (by decide!)).2.1,
    (C5_zoom_rounded rightPressed 0 1 (by decide) (by decide!)).2.2.2.1 (by decide!),
    (C5_zoom_rounded rightPressed 0 100 (by decide) (by decide!)).2.2.1
      (by decide!) (by decide!) (by decide!),
    by decide!, by decide!⟩

/-! ## Idle pointer-move (C7) -/

/-- C7: with `action = MOVE_NONE` a motion event leaves distance, azimuth,
incidence, twist, the projection parameters, the action and the light
binding unchanged. -/
theorem C7_idle_motion_noop (s : State) (x y : Int) (h : s.action = MOVE_NONE) :
    (motion s x y).distance = s.distance ∧
    (motion s x y).azimAngle = s.azimAngle ∧
    (motion s x y).incAngle = s.incAngle ∧
    (motion s x y).twistAngle = s.twistAngle ∧
    (motion s x y).fovy = s.fovy ∧
    (motion s x y).nearClip = s.nearClip ∧
    (motion s x y).farClip = s.farClip ∧
    (motion s x y).action = s.action ∧
    (motion s x y).lightpos = s.lightpos := by
  simp [motion, h, MOVE_NONE, ZOOM, MOVE_EYE, TWIST_EYE]

/-- C7 witness: the start-up state with the action set to `MOVE_NONE`,
pointer moved to (200,200). -/
theorem C7_idle_motion_noop_witness :
    idleState.action = MOVE_NONE ∧
    ((motion idleState 200 200).distance = idleState.distance ∧
      (motion idleState 200 200).azimAngle = idleState.azimAngle ∧
      (motion idleState 200 200).incAngle = idleState.incAngle ∧
      (motion idleState 200 200).twistAngle = idleState.twistAngle ∧
      (motion idleState 200 200).fovy = idleState.fovy ∧
      (motion idleState 200 200).nearClip = idleState.nearClip ∧
      (motion idleState 200 200).farClip = idleState.farClip ∧
      (motion idleState 200 200).action = idleState.action ∧
      (motion idleState 200 200).lightpos = idleState.lightpos) :=
  ⟨by decide, C7_idle_motion_noop idleState 200 200 (by decide)⟩

/-! ## `resetView` (C9) -/

/-- C9: `resetView` sets distance to the midpoint of the clip planes, twist
to 0, incidence to 60, azimuth to 0 and fovy to 60, and leaves the clip
planes, the action, the reference pointer and the light binding unchanged;
after `initgfx` (clip planes 3 and 12) the distance is 7.5, strictly between
the clip planes; `resetView` is idempotent. -/
theorem C9_resetView_postcondition (s : State) :
    (resetView s).distance = s.nearClip + (s.farClip - s.nearClip) / 2 ∧
    (resetView s).twistAngle = 0 ∧
    (resetView s).incAngle = 60 ∧
    (resetView s).azimAngle = 0 ∧
    (resetView s).fovy = 60 ∧
    (resetView s).nearClip = s.nearClip ∧
    (resetView s).farClip = s.farClip ∧
    (resetView s).action = s.action ∧
    (resetView s).xStart = s.xStart ∧
    (resetView s).yStart = s.yStart ∧
    (resetView s).lightpos = s.lightpos ∧
    (resetView s).buttons_down = s.buttons_down ∧
    (initgfx s).nearClip = 3 ∧
    (initgfx s).farClip = 12 ∧
    (initgfx s).distance = 15 / 2 ∧
    (initgfx s).nearClip < (initgfx s).distance ∧
    (initgfx s).distance < (initgfx s).farClip ∧
    resetView (initgfx s) = initgfx s ∧
    resetView (resetView s) = resetView s := by
  have hd : (initgfx s).distance = 15 / 2 := by
    simp only [initgfx, resetView]
    norm_num
  have hn : (initgfx s).nearClip = 3 := rfl
  have hf : (initgfx s).farClip = 12 := rfl
  refine ⟨rfl, rfl, rfl, rfl, rfl, rfl, rfl, rfl, rfl, rfl, rfl, rfl, hn, hf, hd,
    ?_, ?_, ?_, rfl⟩
  · rw [hn, hd]
    norm_num
  · rw [hf, hd]
    norm_num
  · simp only [initgfx, resetView]

/-! ## Twist drag (C3, C4) -/

/-- C3 counterexample: after start-up, the middle button is pressed at
(10,0), so the twist is 0 and the mode is `TWIST_EYE`; moving the pointer
left to (5,0) gives `fmod(-5, 360) = -5`, a negative twist. -/
theorem C3_twist_negative_counterexample :
    middlePressed.action = TWIST_EYE ∧
    0 ≤ middlePressed.twistAngle ∧ middlePressed.twistAngle < 360 ∧
    (motion middlePressed 5 0).twistAngle = -5 ∧
    ¬ (0 ≤ (motion middlePressed 5 0).twistAngle ∧
        (motion middlePressed 5 0).twistAngle < 360) := by
  decide!

/-- C3 (amended): in `TWIST_EYE` mode with the twist in [0, 360) before the
update, the twist after a motion event lies strictly between -360 and 360;
it lies in [0, 360) when `twist + deltaX` is non-negative, in particular for
every non-negative `deltaX`, and in (-360, 0] when `twist + deltaX` is
negative. -/
theorem C3_twist_range (s : State) (x y : Int) (h : s.action = TWIST_EYE)
    (h0 : 0 ≤ s.twistAngle) (h1 : s.twistAngle < 360) :
    -360 < (motion s x y).twistAngle ∧ (motion s x y).twistAngle < 360 ∧
    (0 ≤ s.twistAngle + ((x : ℚ) - s.xStart) → 0 ≤ (motion s x y).twistAngle) ∧
    (0 ≤ (x : ℚ) - s.xStart → 0 ≤ (motion s x y).twistAngle) ∧
    (s.twistAngle + ((x : ℚ) - s.xStart) < 0 → (motion s x y).twistAngle ≤ 0) := by
  have _ := h1
  rw [motion_twist s x y h]
  have hb := fmod_bounds (s.twistAngle + ((x : ℚ) - s.xStart))
  refine ⟨hb.1, hb.2, ?_, ?_, ?_⟩
  · intro hs
    exact (fmod_nonneg _ hs).1
  · intro hx
    exact (fmod_nonneg _ (add_nonneg h0 hx)).1
  · intro hs
    exact (fmod_neg _ hs).2

/-- C3 witness: the state of the counterexample, pointer moved to (5,0). -/
theorem C3_twist_range_witness :
    middlePressed.action = TWIST_EYE ∧
    0 ≤ middlePressed.twistAngle ∧ middlePressed.twistAngle < 360 ∧
    (-360 < (motion middlePressed 5 0).twistAngle ∧
      (motion middlePressed 5 0).twistAngle < 360 ∧
      (0 ≤ middlePressed.twistAngle + (((5 : Int) : ℚ) - middlePressed.xStart) →
        0 ≤ (motion middlePressed 5 0).twistAngle) ∧
      (0 ≤ ((5 : Int) : ℚ) - middlePressed.xStart →
        0 ≤ (motion middlePressed 5 0).twistAngle) ∧
      (middlePressed.twistAngle + (((5 : Int) : ℚ) - middlePressed.xStart) < 0 →
        (motion middlePressed 5 0).twistAngle ≤ 0)) :=
  ⟨by decide, by decide!, by decide!,
    C3_twist_range middlePressed 5 0 (by decide) (by decide!) (by decide!)⟩

/-- Twist after a run of motion events in `TWIST_EYE` mode: the starting
twist plus the sum of the deltas, up to an integer multiple of 360. -/
theorem motions_twist_congr (s : State) (ps : List (Int × Int))
    (h : s.action = TWIST_EYE) :
    ∃ k : Int, (motions s ps).twistAngle
      = s.twistAngle + sumDX s.xStart ps - 360 * (k : ℚ) := by
  induction ps generalizing s with
  | nil => exact ⟨0, by simp [motions, sumDX]⟩
  | cons p ps ih =>
    have ha : (motion s p.1 p.2).action = TWIST_EYE := by rw [motion_action, h]
    obtain ⟨k, hk⟩ := ih (motion s p.1 p.2) ha
    obtain ⟨j, hj⟩ := fmod_congr (s.twistAngle + ((p.1 : ℚ) - s.xStart))
    refine ⟨k + j, ?_⟩
    simp only [motions, sumDX]
    rw [hk, motion_xStart, motion_twist s p.1 p.2 h, hj]
    push_cast
    ring

/-- Twist after a non-empty run of motion events in `TWIST_EYE` mode lies
strictly between -360 and 360. -/
theorem motions_twist_bounds (s : State) (p : Int × Int) (ps : List (Int × Int))
    (h : s.action = TWIST_EYE) :
    -360 < (motions s (p :: ps)).twistAngle ∧ (motions s (p :: ps)).twistAngle < 360 := by
  induction ps generalizing s p with
  | nil =>
    simp only [motions]
    rw [motion_twist s p.1 p.2 h]
    exact fmod_bounds _
  | cons q qs ih =>
    have ha : (motion s p.1 p.2).action = TWIST_EYE := by rw [motion_action, h]
    have := ih (motion s p.1 p.2) q ha
    simpa only [motions] using this

/-- C4 counterexample: with twist 10 and reference pointer (10,0) in
`TWIST_EYE` mode, one motion event to (-350,0) has `deltaX = -360`, a
multiple of 360, and leaves the twist at `fmod(-350, 360) = -350`, not 10. -/
theorem C4_twist_full_turn_counterexample :
    twistedTen.action = TWIST_EYE ∧
    twistedTen.twistAngle = 10 ∧
    sumDX twistedTen.xStart [(-350, 0)] = 360 * (((-1 : Int)) : ℚ) ∧
    (motions twistedTen [(-350, 0)]).twistAngle = -350 ∧
    (motions twistedTen [(-350, 0)]).twistAngle ≠ twistedTen.twistAngle := by
  decide!

/-- C4 (amended): in `TWIST_EYE` mode with the starting twist in [0, 360),
after a run of motion events whose `deltaX` values sum to an integer multiple
of 360 the twist is congruent to the starting twist modulo 360: it equals the
starting twist or the starting twist minus 360, and it equals the starting
twist whenever the resulting twist is non-negative. -/
theorem C4_twist_full_turn_congruent (s : State) (ps : List (Int × Int)) (m : Int)
    (h : s.action = TWIST_EYE) (h0 : 0 ≤ s.twistAngle) (h1 : s.twistAngle < 360)
    (hsum : sumDX s.xStart ps = 360 * (m : ℚ)) :
    ((motions s ps).twistAngle = s.twistAngle ∨
      (motions s ps).twistAngle = s.twistAngle - 360) ∧
    (0 ≤ (motions s ps).twistAngle → (motions s ps).twistAngle = s.twistAngle) := by
  have key : (motions s ps).twistAngle = s.twistAngle ∨
      (motions s ps).twistAngle = s.twistAngle - 360 := by
    cases ps with
    | nil => exact Or.inl rfl
    | cons p ps =>
      obtain ⟨k, hk⟩ := motions_twist_congr s (p :: ps) h
      obtain ⟨hlo, hhi⟩ := motions_twist_bounds s p ps h
      rw [hsum] at hk
      have e : (motions s (p :: ps)).twistAngle = s.twistAngle + 360 * (((m - k : Int)) : ℚ) := by
        rw [hk]
        push_cast
        ring
      rw [e] at hlo hhi
      have b1 : (-2 : ℚ) < ((m - k : Int) : ℚ) := by linarith
      have b2 : ((m - k : Int) : ℚ) < 1 := by linarith
      have c1 : (-2 : Int) < m - k := by exact_mod_cast b1
      have c2 : m - k < (1 : Int) := by exact_mod_cast b2
      have hc : m - k = 0 ∨ m - k = -1 := by omega
      rcases hc with hc | hc
      · left
        rw [e, hc]
        simp
      · right
        rw [e, hc]
        push_cast
        ring
  refine ⟨key, ?_⟩
  intro hpos
  rcases key with hk | hk
  · exact hk
  · rw [hk] at hpos
    linarith

/-- C4 witness: the state of the counterexample and its one motion event to
(-350,0). -/
theorem C4_twist_full_turn_congruent_witness :
    twistedTen.action = TWIST_EYE ∧
    0 ≤ twistedTen.twistAngle ∧ twistedTen.twistAngle < 360 ∧
    sumDX twistedTen.xStart [(-350, 0)] = 360 * (((-1 : Int)) : ℚ) ∧
    (((motions twistedTen [(-350, 0)]).twistAngle = twistedTen.twistAngle ∨
        (motions twistedTen [(-350, 0)]).twistAngle = twistedTen.twistAngle - 360) ∧
      (0 ≤ (motions twistedTen [(-350, 0)]).twistAngle →
        (motions twistedTen [(-350, 0)]).twistAngle = twistedTen.twistAngle)) :=
  ⟨by decide!, by decide!, by decide!, by decide!,
    C4_twist_full_turn_congruent twistedTen [(-350, 0)] (-1)
      (by decide!) (by decide!) (by decide!) (by decide!)⟩

/-! ## Button-down classification (C6) -/

/-- C6: a button-down event selects `MOVE_EYE` for the left button, `ZOOM`
for the right button and `TWIST_EYE` for the middle button; for each of the
three buttons it records the pointer as the reference pointer and changes no
camera field, and a motion event at the same pointer right after leaves
azimuth and incidence unchanged, the distance too (for the right button,
whose rule stores the distance back, given that it holds a `GLfloat` value),
and the twist too when it was in [0, 360). -/
theorem C6_button_down_classification (s : State) (x y : Int) :
    (mouse s GLUT_LEFT_BUTTON GLUT_DOWN x y).action = MOVE_EYE ∧
    (mouse s GLUT_RIGHT_BUTTON GLUT_DOWN x y).action = ZOOM ∧
    (mouse s GLUT_MIDDLE_BUTTON GLUT_DOWN x y).action = TWIST_EYE ∧
    ∀ b : Int, b = GLUT_LEFT_BUTTON ∨ b = GLUT_MIDDLE_BUTTON ∨ b = GLUT_RIGHT_BUTTON →
      (mouse s b GLUT_DOWN x y).xStart = (x : ℚ) ∧
      (mouse s b GLUT_DOWN x y).yStart = (y : ℚ) ∧
      (mouse s b GLUT_DOWN x y).distance = s.distance ∧
      (mouse s b GLUT_DOWN x y).azimAngle = s.azimAngle ∧
      (mouse s b GLUT_DOWN x y).incAngle = s.incAngle ∧
      (mouse s b GLUT_DOWN x y).twistAngle = s.twistAngle ∧
      (mouse s b GLUT_DOWN x y).fovy = s.fovy ∧
      (mouse s b GLUT_DOWN x y).nearClip = s.nearClip ∧
      (mouse s b GLUT_DOWN x y).farClip = s.farClip ∧
      ((b = GLUT_RIGHT_BUTTON → toFloat s.distance = s.distance) →
        (motion (mouse s b GLUT_DOWN x y) x y).distance = s.distance) ∧
      (motion (mouse s b GLUT_DOWN x y) x y).azimAngle = s.azimAngle ∧
      (motion (mouse s b GLUT_DOWN x y) x y).incAngle = s.incAngle ∧
      (0 ≤ s.twistAngle → s.twistAngle < 360 →
        (motion (mouse s b GLUT_DOWN x y) x y).twistAngle = s.twistAngle) := by
  refine ⟨by simp [mouse], ?_, ?_, ?_⟩
  · simp [mouse, GLUT_RIGHT_BUTTON, GLUT_LEFT_BUTTON, GLUT_MIDDLE_BUTTON]
  · simp [mouse, GLUT_LEFT_BUTTON, GLUT_MIDDLE_BUTTON]
  · intro b hb
    rcases hb with hb | hb | hb
    · subst hb
      simp [mouse, motion]
    · subst hb
      simp [mouse, motion, GLUT_MIDDLE_BUTTON, GLUT_LEFT_BUTTON, TWIST_EYE, MOVE_EYE]
      intro h0 h1
      exact fmod_of_nonneg_lt _ h0 h1
    · subst hb
      have z1 : toDouble (0 : ℚ) = 0 := flRound_zero 53 (-1074)
      simp [mouse, motion, GLUT_RIGHT_BUTTON, GLUT_LEFT_BUTTON, GLUT_MIDDLE_BUTTON,
        ZOOM, MOVE_EYE, TWIST_EYE, z1]
      intro hd
      rw [toDouble_of_toFloat _ hd, hd]

/-- C6 witness: the start-up state with the pointer at (100,100); the middle
button, whose motion rule is the one that needs the twist in [0, 360), and
the right button, whose motion rule stores the distance back. -/
theorem C6_button_down_classification_witness :
    (GLUT_MIDDLE_BUTTON = GLUT_LEFT_BUTTON ∨ GLUT_MIDDLE_BUTTON = GLUT_MIDDLE_BUTTON ∨
      GLUT_MIDDLE_BUTTON = GLUT_RIGHT_BUTTON) ∧
    0 ≤ initState.twistAngle ∧ initState.twistAngle < 360 ∧
    (mouse initState GLUT_MIDDLE_BUTTON GLUT_DOWN 100 100).action = TWIST_EYE ∧
    (motion (mouse initState GLUT_MIDDLE_BUTTON GLUT_DOWN 100 100) 100 100).twistAngle
      = initState.twistAngle ∧
    (GLUT_RIGHT_BUTTON = GLUT_LEFT_BUTTON ∨ GLUT_RIGHT_BUTTON = GLUT_MIDDLE_BUTTON ∨
      GLUT_RIGHT_BUTTON = GLUT_RIGHT_BUTTON) ∧
    toFloat initState.distance = initState.distance ∧
    (motion (mouse initState GLUT_RIGHT_BUTTON GLUT_DOWN 100 100) 100 100).distance
      = initState.distance :=
  ⟨by decide, by decide!, by decide!,
    (C6_button_down_classification initState 100 100).2.2.1,
    ((C6_button_down_classification initState 100 100).2.2.2 GLUT_MIDDLE_BUTTON
      (by decide)).2.2.2.2.2.2.2.2.2.2.2.2 (by decide!) (by decide!),
    by decide, by decide!,
    ((C6_button_down_classification initState 100 100).2.2.2 GLUT_RIGHT_BUTTON
      (by decide)).2.2.2.2.2.2.2.2.2.1 (fun _ => by decide!)⟩

/-! ## Release of a different button (C8) -/

/-- C8: with `buttons_down = 0`, pressing button A and then releasing a
different button B does not set the action to `MOVE_NONE`; the action is
still the one A selected, the reference pointer is still where A was
pressed, and the next motion event updates the camera by the rule of A:
azimuth and incidence for the left button, twist for the middle button,
distance (the difference rounded to `GLfloat`) for the right button. -/
theorem C8_release_other_button_keeps_mode (s : State) (a b x y x1 y1 x2 y2 : Int)
    (h0 : s.buttons_down = 0)
    (ha : a = GLUT_LEFT_BUTTON ∨ a = GLUT_MIDDLE_BUTTON ∨ a = GLUT_RIGHT_BUTTON)
    (hb : b = GLUT_LEFT_BUTTON ∨ b = GLUT_MIDDLE_BUTTON ∨ b = GLUT_RIGHT_BUTTON)
    (hab : a ≠ b) :
    (mouse (mouse s a GLUT_DOWN x y) b GLUT_UP x1 y1).action ≠ MOVE_NONE ∧
    (mouse (mouse s a GLUT_DOWN x y) b GLUT_UP x1 y1).action
      = (mouse s a GLUT_DOWN x y).action ∧
    (a = GLUT_LEFT_BUTTON →
      (mouse (mouse s a GLUT_DOWN x y) b GLUT_UP x1 y1).action = MOVE_EYE ∧
      (motion (mouse (mouse s a GLUT_DOWN x y) b GLUT_UP x1 y1) x2 y2).azimAngle
        = s.azimAngle + ((x2 : ℚ) - (x : ℚ)) ∧
      (motion (mouse (mouse s a GLUT_DOWN x y) b GLUT_UP x1 y1) x2 y2).incAngle
        = s.incAngle - ((y2 : ℚ) - (y : ℚ))) ∧
    (a = GLUT_MIDDLE_BUTTON →
      (mouse (mouse s a GLUT_DOWN x y) b GLUT_UP x1 y1).action = TWIST_EYE ∧
      (motion (mouse (mouse s a GLUT_DOWN x y) b GLUT_UP x1 y1) x2 y2).twistAngle
        = fmod (s.twistAngle + ((x2 : ℚ) - (x : ℚ))) 360) ∧
    (a = GLUT_RIGHT_BUTTON →
      (mouse (mouse s a GLUT_DOWN x y) b GLUT_UP x1 y1).action = ZOOM ∧
      (motion (mouse (mouse s a GLUT_DOWN x y) b GLUT_UP x1 y1) x2 y2).distance
        = toFloat (toDouble (s.distance - toDouble (toDouble ((y2 : ℚ) - (y : ℚ)) / 10)))) := by
  have _ := hb
  have _ := hab
  have hw : wrap32 (s.buttons_down - 1) = -1 := by
    rw [h0]
    decide
  rcases ha with ha | ha | ha
  · subst ha
    simp [mouse, motion, hw, GLUT_UP, GLUT_DOWN, GLUT_LEFT_BUTTON, GLUT_MIDDLE_BUTTON,
      GLUT_RIGHT_BUTTON, MOVE_EYE, TWIST_EYE, ZOOM, MOVE_NONE]
  · subst ha
    simp [mouse, motion, hw, GLUT_UP, GLUT_DOWN, GLUT_LEFT_BUTTON, GLUT_MIDDLE_BUTTON,
      GLUT_RIGHT_BUTTON, MOVE_EYE, TWIST_EYE, ZOOM, MOVE_NONE]
  · subst ha
    simp [mouse, motion, hw, GLUT_UP, GLUT_DOWN, GLUT_LEFT_BUTTON, GLUT_MIDDLE_BUTTON,
      GLUT_RIGHT_BUTTON, MOVE_EYE, TWIST_EYE, ZOOM, MOVE_NONE]

/-- C8 witness: after start-up the left button is pressed at (100,100), the
right button is released at (120,90), and the pointer moves to (150,80). -/
theorem C8_release_other_button_keeps_mode_witness :
    initState.buttons_down = 0 ∧
    GLUT_LEFT_BUTTON ≠ GLUT_RIGHT_BUTTON ∧
    (mouse (mouse initState GLUT_LEFT_BUTTON GLUT_DOWN 100 100)
      GLUT_RIGHT_BUTTON GLUT_UP 120 90).action ≠ MOVE_NONE ∧
    (motion (mouse (mouse initState GLUT_LEFT_BUTTON GLUT_DOWN 100 100)
      GLUT_RIGHT_BUTTON GLUT_UP 120 90) 150 80).azimAngle = 50 :=
  ⟨by decide, by decide,
    (C8_release_other_button_keeps_mode initState GLUT_LEFT_BUTTON GLUT_RIGHT_BUTTON
      100 100 120 90 150 80 (by decide) (Or.inl rfl) (Or.inr (Or.inr rfl)) (by decide)).1,
    by decide!⟩

/-! ## Reachable states of the mouse state machine (C10) -/

/-- Invariant of `run`: from a state whose counter is `-n` and whose action is
one of the three drag modes, a list of events with `n + countUps es ≤ 2 ^ 31`
leaves the counter at `-(n + countUps es)` and the action a drag mode. -/
theorem run_invariant (es : List Event) (s : State) (n : Nat)
    (hb : s.buttons_down = -(n : Int))
    (ha : s.action = MOVE_EYE ∨ s.action = TWIST_EYE ∨ s.action = ZOOM)
    (hn : n + countUps es < 2 ^ 31) :
    (run s es).buttons_down = -((n + countUps es : Nat) : Int) ∧
    ((run s es).action = MOVE_EYE ∨ (run s es).action = TWIST_EYE ∨
      (run s es).action = ZOOM) := by
  induction es generalizing s n with
  | nil => simpa [run, countUps] using ⟨hb, ha⟩
  | cons e es ih =>
    cases e with
    | motion x y =>
      simp only [countUps] at hn ⊢
      simp only [run, step]
      exact ih (motion s x y) n (by rw [motion_buttons_down, hb])
        (by rw [motion_action]; exact ha) hn
    | mouse b st x y =>
      simp only [countUps] at hn ⊢
      simp only [run, step]
      by_cases hst : st = GLUT_DOWN
      · rw [if_pos hst] at hn ⊢
        have h1 : (mouse s b st x y).buttons_down = -(n : Int) := by
          rw [← hb]
          unfold mouse
          rw [if_pos hst]
          split_ifs <;> rfl
        have h2 : (mouse s b st x y).action = MOVE_EYE ∨
            (mouse s b st x y).action = TWIST_EYE ∨ (mouse s b st x y).action = ZOOM := by
          unfold mouse
          rw [if_pos hst]
          split_ifs
          · exact Or.inl rfl
          · exact Or.inr (Or.inl rfl)
          · exact Or.inr (Or.inr rfl)
          · exact ha
        have := ih (mouse s b st x y) n h1 h2 (by omega)
        simpa using this
      · rw [if_neg hst] at hn ⊢
        have hw : wrap32 (s.buttons_down - 1) = -((n + 1 : Nat) : Int) := by
          rw [hb, wrap32_of_range] <;> push_cast <;> omega
        have hne : wrap32 (s.buttons_down - 1) ≠ 0 := by
          rw [hw]
          push_cast
          omega
        have h1 : (mouse s b st x y).buttons_down = -((n + 1 : Nat) : Int) := by
          rw [← hw]
          unfold mouse
          rw [if_neg hst]
          simp only [if_neg hne]
        have h2 : (mouse s b st x y).action = s.action := by
          unfold mouse
          rw [if_neg hst]
          simp only [if_neg hne]
        have := ih (mouse s b st x y) (n + 1) h1 (by rw [h2]; exact ha) (by omega)
        have e : n + 1 + countUps es = n + (1 + countUps es) := by omega
        rw [e] at this
        exact this

/-- C10: from the state at start-up (`action = MOVE_EYE`, `buttons_down = 0`),
after any finite list of mouse and motion events with fewer than 2^31
button-up events, `buttons_down` is minus the number of button-up events, so
it is at most 0 and negative once a button-up event has occurred, and the
action is `MOVE_EYE`, `TWIST_EYE` or `ZOOM`, never `MOVE_NONE`. -/
theorem C10_move_none_unreachable (es : List Event) (h : countUps es < 2 ^ 31) :
    (run initState es).buttons_down = -((countUps es : Nat) : Int) ∧
    (run initState es).buttons_down ≤ 0 ∧
    (0 < countUps es → (run initState es).buttons_down < 0) ∧
    ((run initState es).action = MOVE_EYE ∨ (run initState es).action = TWIST_EYE ∨
      (run initState es).action = ZOOM) ∧
    (run initState es).action ≠ MOVE_NONE := by
  have hinv := run_invariant es initState 0 (by decide) (Or.inl (by decide)) (by omega)
  rw [Nat.zero_add] at hinv
  obtain ⟨hb, ha⟩ := hinv
  refine ⟨hb, ?_, ?_, ha, ?_⟩
  · rw [hb]
    omega
  · intro hp
    rw [hb]
    omega
  · rcases ha with ha | ha | ha <;> rw [ha] <;> decide

/-- C10 witness: press left, move, release left, press right, release right,
move. -/
theorem C10_move_none_unreachable_witness :
    countUps [Event.mouse GLUT_LEFT_BUTTON GLUT_DOWN 100 100, Event.motion 150 80,
      Event.mouse GLUT_LEFT_BUTTON GLUT_UP 150 80,
      Event.mouse GLUT_RIGHT_BUTTON GLUT_DOWN 10 10,
      Event.mouse GLUT_RIGHT_BUTTON GLUT_UP 10 20, Event.motion 200 200] < 2 ^ 31 ∧
    (run initState [Event.mouse GLUT_LEFT_BUTTON GLUT_DOWN 100 100, Event.motion 150 80,
      Event.mouse GLUT_LEFT_BUTTON GLUT_UP 150 80,
      Event.mouse GLUT_RIGHT_BUTTON GLUT_DOWN 10 10,
      Event.mouse GLUT_RIGHT_BUTTON GLUT_UP 10 20, Event.motion 200 200]).action
      ≠ MOVE_NONE :=
  ⟨by decide,
    (C10_move_none_unreachable [Event.mouse GLUT_LEFT_BUTTON GLUT_DOWN 100 100,
      Event.motion 150 80, Event.mouse GLUT_LEFT_BUTTON GLUT_UP 150 80,
      Event.mouse GLUT_RIGHT_BUTTON GLUT_DOWN 10 10,
      Event.mouse GLUT_RIGHT_BUTTON GLUT_UP 10 20, Event.motion 200 200]
      (by decide)).2.2.2.2⟩

end Iluminacao
